import Mathlib

/-!
Verification of `pwfz` (pwfz.go): a CLI that searches a Passwork vault,
shows hits in `fzf`, and copies the selected entry's decoded secret to the
clipboard.  Go strings are modelled as lists of bytes (`GoStr`), Go `int`
as `Int`, and the external processes (HTTP fetches, fzf, clipboard) as
oracle inputs to an explicit orchestration function mirroring `main`.
-/

namespace Pwfz

/-- Go strings are byte sequences; we model them as lists of byte values. -/
abbrev GoStr := List Nat

/-- Predicate on bytes mirroring the ASCII white-space set recognised by
Go's `strings.TrimSpace` (tab, LF, VT, FF, CR, space); the model works at
the byte level, so only the ASCII range is represented. -/
def isSpaceByte (c : Nat) : Bool :=
  c == 32 || c == 9 || c == 10 || c == 11 || c == 12 || c == 13

/-- Model of Go `strings.TrimSpace`: drop leading and trailing white-space
bytes. -/
def trimSpace (s : GoStr) : GoStr :=
  ((s.dropWhile isSpaceByte).reverse.dropWhile isSpaceByte).reverse

/-- Model of Go `strings.Join`: concatenate the strings with `sep` between
consecutive elements. -/
def joinSep (sep : GoStr) : List GoStr → GoStr
  | [] => []
  | [x] => x
  | x :: y :: rest => x ++ sep ++ joinSep sep (y :: rest)

/-! ### Base64 (Go `encoding/base64` StdEncoding)

Go's `base64.StdEncoding.DecodeString` ignores `\r` and `\n` bytes,
requires the remaining input to consist of 4-character quanta over the
standard alphabet with `=` padding only at the end, and (in its default,
non-strict mode) discards any non-zero trailing padding bits. -/

/-- Value of a standard-alphabet base64 character, `none` for any byte
outside the alphabet (including the padding byte `=`). -/
def b64Index (c : Nat) : Option Nat :=
  if 65 ≤ c ∧ c ≤ 90 then some (c - 65)
  else if 97 ≤ c ∧ c ≤ 122 then some (c - 97 + 26)
  else if 48 ≤ c ∧ c ≤ 57 then some (c - 48 + 52)
  else if c = 43 then some 62
  else if c = 47 then some 63
  else none

/-- Byte of the standard-alphabet base64 character for a 6-bit value. -/
def b64Char (i : Nat) : Nat :=
  if i < 26 then 65 + i
  else if i < 52 then 97 + (i - 26)
  else if i < 62 then 48 + (i - 52)
  else if i = 62 then 43
  else 47

/-- True for bytes that survive the decoder's `\r`/`\n` filtering. -/
def notCRLF (c : Nat) : Bool :=
  !(c == 13 || c == 10)

/-- Decode a `\r`/`\n`-free base64 string quantum by quantum, mirroring Go's
`StdEncoding` decode loop: four characters yield three bytes; a final
quantum may end in `=` (two output bytes) or `==` (one output byte), and
padding anywhere else, a non-alphabet byte, or a trailing partial quantum
is an error (`none`). -/
def decodeB64Quanta : List Nat → Option (List Nat)
  | [] => some []
  | c0 :: c1 :: c2 :: c3 :: rest =>
    match b64Index c0, b64Index c1 with
    | some v0, some v1 =>
      if c2 = 61 then
        if c3 = 61 ∧ rest = [] then
          some [v0 * 4 + v1 / 16]
        else none
      else
        match b64Index c2 with
        | some v2 =>
          if c3 = 61 then
            if rest = [] then
              some [v0 * 4 + v1 / 16, v1 % 16 * 16 + v2 / 4]
            else none
          else
            match b64Index c3 with
            | some v3 =>
              match decodeB64Quanta rest with
              | some bs =>
                some ((v0 * 4 + v1 / 16) :: (v1 % 16 * 16 + v2 / 4) ::
                      (v2 % 4 * 64 + v3) :: bs)
              | none => none
            | none => none
        | none => none
    | _, _ => none
  | _ => none

/-- Model of Go `base64.StdEncoding.DecodeString`: filter out `\r`/`\n`,
then decode quanta; `none` models the error return. -/
def decodeB64 (s : GoStr) : Option GoStr :=
  decodeB64Quanta (s.filter notCRLF)

/-- Model of `decodeB64OrRaw` (pwfz.go): try to base64-decode `s`; on any
decode error return `s` unchanged. -/
def decodeB64OrRaw (s : GoStr) : GoStr :=
  match decodeB64 s with
  | some b => b
  | none => s

/-- Model of Go `base64.StdEncoding.EncodeToString` on a byte list:
three-byte groups become four alphabet characters; a final one- or
two-byte group is padded with `==` or `=`. -/
def encodeB64 : List Nat → GoStr
  | [] => []
  | [b0] => [b64Char (b0 / 4), b64Char (b0 % 4 * 16), 61, 61]
  | [b0, b1] =>
    [b64Char (b0 / 4), b64Char (b0 % 4 * 16 + b1 / 16), b64Char (b1 % 16 * 4), 61]
  | b0 :: b1 :: b2 :: rest =>
    b64Char (b0 / 4) :: b64Char (b0 % 4 * 16 + b1 / 16) ::
    b64Char (b1 % 16 * 4 + b2 / 64) :: b64Char (b2 % 64) :: encodeB64 rest

/-! ### Data model (pwfz.go structs; JSON field names kept) -/

/-- One segment of a password's folder path (`pathSegment` in pwfz.go). -/
structure pathSegment where
  order : Int
  name : GoStr
  type : GoStr
  id : GoStr
deriving DecidableEq

/-- A custom name/value field on a password (`customField` in pwfz.go). -/
structure customField where
  name : GoStr
  value : GoStr
  type : GoStr
deriving DecidableEq

/-- Attachment metadata (`attachmentInfo` in pwfz.go). -/
structure attachmentInfo where
  name : GoStr
  id : GoStr
  encryptedKey : GoStr
deriving DecidableEq

/-- Full password record (`passwordDetail` in pwfz.go). -/
structure passwordDetail where
  vaultId : GoStr
  id : GoStr
  name : GoStr
  login : GoStr
  url : GoStr
  cryptedPassword : GoStr
  tags : List GoStr
  color : Int
  path : List pathSegment
  custom : List customField
  attachments : List attachmentInfo
deriving DecidableEq

/-- Search hit (`passwordSearchHit` in pwfz.go). -/
structure passwordSearchHit where
  id : GoStr
  name : GoStr
deriving DecidableEq

/-! ### Formatting helpers (pwfz.go) -/

/-- Model of `orEmpty` (pwfz.go): empty string when `s` is all white-space,
otherwise `s` itself. -/
def orEmpty (s : GoStr) : GoStr :=
  if trimSpace s = [] then [] else s

/-- One rendered part of the description for a custom field: decode name
and value independently, trim both; skip the field (`none`) when both are
empty, else render `value`, `name`, or `name=value` (61 is `=`). This is
the loop body of `formatDescription` (pwfz.go). -/
def descPart (c : customField) : Option GoStr :=
  let name := trimSpace (decodeB64OrRaw c.name)
  let val := trimSpace (decodeB64OrRaw c.value)
  if name = [] ∧ val = [] then none
  else if name = [] then some val
  else if val = [] then some name
  else some (name ++ [61] ++ val)

/-- Model of `formatDescription` (pwfz.go): render the non-skipped custom
fields joined with `"; "` (bytes 59, 32). -/
def formatDescription (custom : List customField) : GoStr :=
  if custom = [] then []
  else joinSep [59, 32] (custom.filterMap descPart)

/-- Sort of the path segments mirroring `sort.Slice(path, less)` with
`less i j = path[i].Order < path[j].Order` (pwfz.go `formatPath`). -/
def sortByOrder (l : List pathSegment) : List pathSegment :=
  l.insertionSort (fun a b => a.order < b.order)

/-- Model of `formatPath` (pwfz.go): `"-"` (byte 45) for an empty segment
list; otherwise sort by `order`, keep non-empty names, join with `" / "`
(bytes 32, 47, 32), and fall back to `"-"` when no names remain. -/
def formatPath (path : List pathSegment) : GoStr :=
  if path = [] then [45]
  else
    let sorted := sortByOrder path
    let names := (sorted.map (fun p => p.name)).filter (fun n => n ≠ [])
    if names = [] then [45]
    else joinSep [32, 47, 32] names

/-- Placeholder title `"(no title)"` as bytes (pwfz.go `buildFzfLine`). -/
def noTitle : GoStr := [40, 110, 111, 32, 116, 105, 116, 108, 101, 41]

/-- Column separator `" | "` as bytes (pwfz.go `buildFzfLine`). -/
def sepBar : GoStr := [32, 124, 32]

/-- Model of `buildFzfLine` (pwfz.go): `<id><TAB><name> | <path> | <login>
| <url> | <description>`; byte 9 is the tab. -/
def buildFzfLine (p : passwordDetail) : GoStr :=
  let name := if p.name = [] then noTitle else p.name
  let pathStr := formatPath p.path
  let desc := formatDescription p.custom
  let display :=
    name ++ sepBar ++ pathStr ++ sepBar ++ orEmpty p.login ++ sepBar ++
    orEmpty p.url ++ sepBar ++ desc
  p.id ++ 9 :: display

/-- State-passing version of `formatPath`: in Go, `sort.Slice` mutates the
caller's slice in place, so besides the formatted string we return the
path list as it is left after the call. -/
def formatPathSt (path : List pathSegment) : GoStr × List pathSegment :=
  if path = [] then ([45], path)
  else
    let sorted := sortByOrder path
    let names := (sorted.map (fun p => p.name)).filter (fun n => n ≠ [])
    (if names = [] then [45] else joinSep [32, 47, 32] names, sorted)

/-- State-passing version of `buildFzfLine`: returns the line together with
the record as it is left after the call (only `path` can change, through
`formatPath`'s in-place sort). -/
def buildFzfLineSt (p : passwordDetail) : GoStr × passwordDetail :=
  let ps := formatPathSt p.path
  let name := if p.name = [] then noTitle else p.name
  let desc := formatDescription p.custom
  let display :=
    name ++ sepBar ++ ps.1 ++ sepBar ++ orEmpty p.login ++ sepBar ++
    orEmpty p.url ++ sepBar ++ desc
  (p.id ++ 9 :: display, { p with path := ps.2 })

/-! ### Selector, clipboard and orchestration model (pwfz.go `runFzf`,
`copyToClipboard`, `main`)

The external processes are modelled by oracle inputs: each detail fetch is
an `Option passwordDetail` paired with its search hit (`none` models a
`getPassword` error), the fzf process by `FzfResult`, and the clipboard
step by `ClipResult`. -/

/-- Outcome of running the external fzf process. -/
inductive FzfResult where
  /-- The process could not be started. -/
  | startError : FzfResult
  /-- The process ran, exited with `code` and wrote `stdout`. -/
  | exited (code : Nat) (stdout : GoStr) : FzfResult
deriving DecidableEq

/-- Outcome of the clipboard step (`copyToClipboard` in pwfz.go). -/
inductive ClipResult where
  /-- No clipboard command could be resolved; nothing is invoked. -/
  | noCommand : ClipResult
  /-- The resolved command was invoked with the text but failed. -/
  | runFail : ClipResult
  /-- The resolved command was invoked with the text and succeeded. -/
  | ok : ClipResult
deriving DecidableEq

/-- Model of `runFzf` (pwfz.go): `cmd.Run()` returns an error when the
process cannot start or exits with a non-zero code (`none`); on a normal
exit the captured standard output is returned trimmed. -/
def runFzfModel (res : FzfResult) : Option GoStr :=
  match res with
  | .startError => none
  | .exited code out => if code = 0 then some (trimSpace out) else none

/-- First field of a selected line, before the first tab: model of
`strings.SplitN(selected, "\t", 2)[0]` (pwfz.go `main`). -/
def idFromLine (s : GoStr) : GoStr :=
  s.takeWhile (fun c => c ≠ 9)

/-- Details kept by `main`'s fetch loop: failed fetches are skipped, the
successful ones are kept in search order. -/
def detailsOf (hits : List (passwordSearchHit × Option passwordDetail)) :
    List passwordDetail :=
  hits.filterMap (fun h => h.2)

/-- Identifiers for which the fetch loop printed a skip warning, in search
order. -/
def warnIdsOf (hits : List (passwordSearchHit × Option passwordDetail)) :
    List GoStr :=
  (hits.filter (fun h => h.2 = none)).map (fun h => h.1.id)

/-- Lines handed to the selector: one `buildFzfLine` per fetched detail, in
order. -/
def linesOf (hits : List (passwordSearchHit × Option passwordDetail)) :
    List GoStr :=
  (detailsOf hits).map buildFzfLine

/-- Observable outcome of one program run. -/
structure RunOutcome where
  /-- Process exit code (0 or 1). -/
  exitCode : Nat
  /-- Lines fed to the selector process, `none` when it was never invoked. -/
  selectorLines : Option (List GoStr)
  /-- Text delivered to the clipboard command's standard input, `none` when
  no clipboard command was invoked with any text. -/
  clipboardInput : Option GoStr
  /-- Identifiers warned about and skipped by the fetch loop. -/
  fetchWarnIds : List GoStr
  /-- Whether the base64-decode warning for the secret was printed. -/
  decodeWarned : Bool
deriving DecidableEq

/-- Model of `main` (pwfz.go) from the point where the search succeeded
with `hits`: fetch details (skipping failures with a warning), exit 0
early on no hits or no usable details, run fzf over the built lines, exit
0 silently on an empty selection, resolve the selected id against the
fetched details, fail on a missing or empty secret, decode the secret
(falling back to the raw value with a warning), and deliver it to the
clipboard. -/
def mainModel (hits : List (passwordSearchHit × Option passwordDetail))
    (fzfRes : FzfResult) (clip : ClipResult) : RunOutcome :=
  if hits = [] then ⟨0, none, none, [], false⟩
  else
    let warnIds := warnIdsOf hits
    let details := detailsOf hits
    if details = [] then ⟨0, none, none, warnIds, false⟩
    else
      let lines := details.map buildFzfLine
      match runFzfModel fzfRes with
      | none => ⟨1, some lines, none, warnIds, false⟩
      | some selected =>
        if selected = [] then ⟨0, some lines, none, warnIds, false⟩
        else
          let i := idFromLine selected
          match details.find? (fun d => d.id = i) with
          | none => ⟨1, some lines, none, warnIds, false⟩
          | some chosen =>
            if chosen.cryptedPassword = [] then
              ⟨1, some lines, none, warnIds, false⟩
            else
              match decodeB64 chosen.cryptedPassword with
              | none =>
                match clip with
                | .noCommand => ⟨1, some lines, none, warnIds, true⟩
                | .runFail =>
                  ⟨1, some lines, some chosen.cryptedPassword, warnIds, true⟩
                | .ok =>
                  ⟨0, some lines, some chosen.cryptedPassword, warnIds, true⟩
              | some decoded =>
                match clip with
                | .noCommand => ⟨1, some lines, none, warnIds, false⟩
                | .runFail => ⟨1, some lines, some decoded, warnIds, false⟩
                | .ok => ⟨0, some lines, some decoded, warnIds, false⟩

/-! ### Sample values for concrete instantiations -/

/-- Sample search hit with identifier a. -/
def hitA : passwordSearchHit := ⟨[97], [110]⟩

/-- Sample search hit with identifier b. -/
def hitB : passwordSearchHit := ⟨[98], [109]⟩

/-- Sample detail record with identifier a whose secret is the base64
encoding of hello. -/
def dHello : passwordDetail :=
  ⟨[], [97], [110], [], [], [97, 71, 86, 115, 98, 71, 56, 61], [], 0, [], [], []⟩

/-- Second sample record with the same identifier a and another secret. -/
def dDup : passwordDetail :=
  ⟨[], [97], [109], [], [], [65, 65, 61, 61], [], 0, [], [], []⟩

/-! ### Base64 lemmas and theorems -/

/-- Decoding inverts the character table on 6-bit values. -/
theorem b64Index_b64Char : ∀ i : Nat, i < 64 → b64Index (b64Char i) = some i := by decide

theorem b64Char_ne61 (i : Nat) : b64Char i ≠ 61 := by
  unfold b64Char; split_ifs <;> omega

theorem notCRLF_b64Char (i : Nat) : notCRLF (b64Char i) = true := by
  unfold b64Char notCRLF; split_ifs <;> simp <;> omega

theorem encodeB64_notCRLF : ∀ (bs : List Nat), ∀ c ∈ encodeB64 bs, notCRLF c = true
  | [], c, hc => by simp [encodeB64] at hc
  | [b0], c, hc => by
    simp only [encodeB64, List.mem_cons, List.not_mem_nil, or_false] at hc
    rcases hc with rfl | rfl | rfl | rfl <;> first | exact notCRLF_b64Char _ | rfl
  | [b0, b1], c, hc => by
    simp only [encodeB64, List.mem_cons, List.not_mem_nil, or_false] at hc
    rcases hc with rfl | rfl | rfl | rfl <;> first | exact notCRLF_b64Char _ | rfl
  | b0 :: b1 :: b2 :: rest, c, hc => by
    simp only [encodeB64, List.mem_cons] at hc
    rcases hc with rfl | rfl | rfl | rfl | h
    · exact notCRLF_b64Char _
    · exact notCRLF_b64Char _
    · exact notCRLF_b64Char _
    · exact notCRLF_b64Char _
    · exact encodeB64_notCRLF rest c h

theorem decodeB64Quanta_encodeB64 :
    ∀ (bs : List Nat), (∀ b ∈ bs, b < 256) → decodeB64Quanta (encodeB64 bs) = some bs
  | [], _ => rfl
  | [b0], h => by
    have h0 : b0 < 256 := h b0 (by simp)
    have e0 : b64Index (b64Char (b0 / 4)) = some (b0 / 4) := b64Index_b64Char _ (by omega)
    have e1 : b64Index (b64Char (b0 % 4 * 16)) = some (b0 % 4 * 16) :=
      b64Index_b64Char _ (by omega)
    simp [encodeB64, decodeB64Quanta, e0, e1]
    omega
  | [b0, b1], h => by
    have h0 : b0 < 256 := h b0 (by simp)
    have h1 : b1 < 256 := h b1 (by simp)
    have e0 : b64Index (b64Char (b0 / 4)) = some (b0 / 4) := b64Index_b64Char _ (by omega)
    have e1 : b64Index (b64Char (b0 % 4 * 16 + b1 / 16)) = some (b0 % 4 * 16 + b1 / 16) :=
      b64Index_b64Char _ (by omega)
    have e2 : b64Index (b64Char (b1 % 16 * 4)) = some (b1 % 16 * 4) :=
      b64Index_b64Char _ (by omega)
    simp [encodeB64, decodeB64Quanta, e0, e1, e2, b64Char_ne61]
    omega
  | b0 :: b1 :: b2 :: rest, h => by
    have h0 : b0 < 256 := h b0 (by simp)
    have h1 : b1 < 256 := h b1 (by simp)
    have h2 : b2 < 256 := h b2 (by simp)
    have e0 : b64Index (b64Char (b0 / 4)) = some (b0 / 4) := b64Index_b64Char _ (by omega)
    have e1 : b64Index (b64Char (b0 % 4 * 16 + b1 / 16)) = some (b0 % 4 * 16 + b1 / 16) :=
      b64Index_b64Char _ (by omega)
    have e2 : b64Index (b64Char (b1 % 16 * 4 + b2 / 64)) = some (b1 % 16 * 4 + b2 / 64) :=
      b64Index_b64Char _ (by omega)
    have e3 : b64Index (b64Char (b2 % 64)) = some (b2 % 64) := b64Index_b64Char _ (by omega)
    have ih : decodeB64Quanta (encodeB64 rest) = some rest :=
      decodeB64Quanta_encodeB64 rest (fun b hb => h b (by simp [hb]))
    simp [encodeB64, decodeB64Quanta, e0, e1, e2, e3, b64Char_ne61, ih]
    omega

theorem decodeB64_encodeB64 (bs : List Nat) (h : ∀ b ∈ bs, b < 256) :
    decodeB64 (encodeB64 bs) = some bs := by
  unfold decodeB64
  rw [List.filter_eq_self.mpr (encodeB64_notCRLF bs), decodeB64Quanta_encodeB64 bs h]

/-! ### Claim theorems: formatting and orchestration -/

theorem takeWhile_notTab (l rest : GoStr) (h : (9 : Nat) ∉ l) :
    (l ++ 9 :: rest).takeWhile (fun c => c ≠ 9) = l := by
  induction l with
  | nil => simp [List.takeWhile]
  | cons a l ih =>
    simp only [List.mem_cons, not_or] at h
    have ha : a ≠ 9 := fun hh => h.1 hh.symm
    simp only [decide_not] at ih
    simp only [List.cons_append, List.takeWhile_cons, decide_not]
    simp [ha, ih h.2]

/-- C2 amended: splitting a built line at the first tab recovers the
identifier, provided the identifier itself contains no tab byte. -/
theorem c2_id_roundtrip (p : passwordDetail) (h : (9 : Nat) ∉ p.id) :
    idFromLine (buildFzfLine p) = p.id := by
  unfold idFromLine buildFzfLine
  exact takeWhile_notTab p.id _ h

theorem c2_id_roundtrip_witness :
    (9 : Nat) ∉ ([97] : GoStr) ∧
    idFromLine (buildFzfLine ⟨[], [97], [], [], [], [], [], 0, [], [], []⟩) = [97] :=
  ⟨by decide, c2_id_roundtrip ⟨[], [97], [], [], [], [], [], 0, [], [], []⟩ (by decide)⟩

/-- C2 counterexample: a record whose identifier contains a tab does not
round-trip through the line split. -/
theorem c2_tab_id_cex :
    idFromLine (buildFzfLine ⟨[], [9, 97], [], [], [], [], [], 0, [], [], []⟩) ≠
      ([9, 97] : GoStr) := by decide

/-- C3: the built line has exactly the shape id, tab, then the five columns
joined by the four separators; its length counts the five columns plus
exactly four separators, however many columns are empty. -/
theorem c3_line_shape (p : passwordDetail) :
    buildFzfLine p =
      p.id ++ 9 :: joinSep sepBar
        [if p.name = [] then noTitle else p.name, formatPath p.path,
         orEmpty p.login, orEmpty p.url, formatDescription p.custom] ∧
    (buildFzfLine p).length =
      p.id.length + 1 + (if p.name = [] then noTitle else p.name).length +
      (formatPath p.path).length + (orEmpty p.login).length +
      (orEmpty p.url).length + (formatDescription p.custom).length +
      4 * sepBar.length := by
  constructor
  · simp [buildFzfLine, joinSep]
  · simp [buildFzfLine, joinSep, sepBar, List.length_append]
    omega



theorem pairwise_orderedInsert (x : pathSegment) (l : List pathSegment)
    (h : l.Pairwise (fun a b => a.order ≤ b.order)) :
    (l.orderedInsert (fun a b => a.order < b.order) x).Pairwise
      (fun a b => a.order ≤ b.order) := by
  induction l with
  | nil => simp
  | cons y ys ih =>
    rw [List.pairwise_cons] at h
    by_cases hxy : x.order < y.order
    · rw [List.orderedInsert, if_pos hxy, List.pairwise_cons]
      refine ⟨?_, List.pairwise_cons.mpr h⟩
      intro z hz
      rcases List.mem_cons.mp hz with rfl | hz
      · exact le_of_lt hxy
      · exact le_trans (le_of_lt hxy) (h.1 z hz)
    · rw [List.orderedInsert, if_neg hxy, List.pairwise_cons]
      refine ⟨?_, ih h.2⟩
      intro z hz
      rcases (List.mem_orderedInsert _).mp hz with rfl | hz
      · exact le_of_not_lt hxy
      · exact h.1 z hz

theorem pairwise_sortByOrder (l : List pathSegment) :
    (sortByOrder l).Pairwise (fun a b => a.order ≤ b.order) := by
  induction l with
  | nil => simp [sortByOrder]
  | cons x xs ih => exact pairwise_orderedInsert x _ ih

theorem sortByOrder_perm (l : List pathSegment) : (sortByOrder l).Perm l :=
  List.perm_insertionSort _ l

/-- C5: the path formatter returns a dash for an empty list; otherwise it
renders the non-empty names of the segments sorted ascending by `order`
(a sorted permutation of the input, whatever its order), joined by the
separator, with a dash when no names remain. -/
theorem c5_format_path (path : List pathSegment) :
    formatPath [] = [45] ∧
    (sortByOrder path).Pairwise (fun a b => a.order ≤ b.order) ∧
    (sortByOrder path).Perm path ∧
    formatPath path =
      (if ((sortByOrder path).map (fun p => p.name)).filter (fun n => n ≠ []) = []
       then [45]
       else joinSep [32, 47, 32]
         (((sortByOrder path).map (fun p => p.name)).filter (fun n => n ≠ []))) := by
  refine ⟨rfl, pairwise_sortByOrder path, sortByOrder_perm path, ?_⟩
  by_cases h : path = []
  · subst h; rfl
  · simp only [formatPath, if_neg h]



/-- C8: the description joins the per-field parts with the separator, each
part independently decodes and trims name and value and skips a field only
when both are empty; when every field trims to empty on both halves the
description is the empty string. -/
theorem c8_description (custom : List customField) :
    formatDescription custom = joinSep [59, 32] (custom.filterMap descPart) ∧
    (∀ c : customField,
      descPart c =
        (if trimSpace (decodeB64OrRaw c.name) = [] ∧
            trimSpace (decodeB64OrRaw c.value) = [] then none
         else if trimSpace (decodeB64OrRaw c.name) = [] then
           some (trimSpace (decodeB64OrRaw c.value))
         else if trimSpace (decodeB64OrRaw c.value) = [] then
           some (trimSpace (decodeB64OrRaw c.name))
         else some (trimSpace (decodeB64OrRaw c.name) ++ [61] ++
           trimSpace (decodeB64OrRaw c.value)))) ∧
    ((∀ c ∈ custom, trimSpace (decodeB64OrRaw c.name) = [] ∧
        trimSpace (decodeB64OrRaw c.value) = []) →
      formatDescription custom = []) := by
  refine ⟨?_, fun c => rfl, ?_⟩
  · by_cases h : custom = []
    · subst h; rfl
    · simp only [formatDescription, if_neg h]
  · intro h
    have hnil : custom.filterMap descPart = [] := by
      rw [List.filterMap_eq_nil_iff]
      intro c hc
      have hce := h c hc
      simp [descPart, hce.1, hce.2]
    by_cases h0 : custom = []
    · subst h0; rfl
    · simp [formatDescription, if_neg h0, hnil, joinSep]

theorem formatPathSt_fst (l : List pathSegment) :
    (formatPathSt l).1 = formatPath l := by
  by_cases h : l = [] <;> simp [formatPathSt, formatPath, h]

theorem formatPathSt_snd (l : List pathSegment) :
    (formatPathSt l).2 = sortByOrder l := by
  by_cases h : l = []
  · subst h; rfl
  · simp [formatPathSt, h]

/-- C9: the line builder is pure apart from the in-place re-sort of the
path slice: the state-passing version returns the same line as the pure
function, and leaves the record unchanged in every field except `path`,
which becomes the (permuted) sort of the original. -/
theorem c9_formatter_frame (p : passwordDetail) :
    (buildFzfLineSt p).1 = buildFzfLine p ∧
    (buildFzfLineSt p).2 = { p with path := sortByOrder p.path } ∧
    ((buildFzfLineSt p).2.path).Perm p.path ∧
    (buildFzfLineSt p).2.id = p.id ∧
    (buildFzfLineSt p).2.name = p.name ∧
    (buildFzfLineSt p).2.login = p.login ∧
    (buildFzfLineSt p).2.url = p.url ∧
    (buildFzfLineSt p).2.cryptedPassword = p.cryptedPassword ∧
    (buildFzfLineSt p).2.custom = p.custom ∧
    (buildFzfLineSt p).2.tags = p.tags ∧
    (buildFzfLineSt p).2.color = p.color ∧
    (buildFzfLineSt p).2.vaultId = p.vaultId ∧
    (buildFzfLineSt p).2.attachments = p.attachments := by
  have h1 : (buildFzfLineSt p).1 = buildFzfLine p := by
    simp [buildFzfLineSt, buildFzfLine, formatPathSt_fst]
  have h2 : (buildFzfLineSt p).2 = { p with path := sortByOrder p.path } := by
    simp [buildFzfLineSt, formatPathSt_snd]
  refine ⟨h1, h2, ?_, ?_, ?_, ?_, ?_, ?_, ?_, ?_, ?_, ?_, ?_⟩ <;> rw [h2]
  exact List.perm_insertionSort _ p.path



/-- C4: with a non-empty usable detail set, a clean empty selection exits 0
with the clipboard untouched; a selector failure exits 1 with the
clipboard untouched; and the selector fails exactly when the process
cannot start or exits with a non-zero code. -/
theorem c4_selector (hits : List (passwordSearchHit × Option passwordDetail))
    (fzfRes : FzfResult) (clip : ClipResult)
    (h1 : hits ≠ []) (h2 : detailsOf hits ≠ []) :
    (∀ out, fzfRes = .exited 0 out → trimSpace out = [] →
      mainModel hits fzfRes clip =
        ⟨0, some (linesOf hits), none, warnIdsOf hits, false⟩) ∧
    (runFzfModel fzfRes = none →
      mainModel hits fzfRes clip =
        ⟨1, some (linesOf hits), none, warnIdsOf hits, false⟩) ∧
    (runFzfModel fzfRes = none ↔
      fzfRes = .startError ∨ ∃ c out, fzfRes = .exited c out ∧ c ≠ 0) := by
  refine ⟨?_, ?_, ?_⟩
  · intro out hf ht
    subst hf
    simp [mainModel, runFzfModel, h1, h2, ht, linesOf]
  · intro hf
    simp [mainModel, hf, h1, h2, linesOf]
  · cases fzfRes with
    | startError => simp [runFzfModel]
    | exited c out =>
      by_cases hc : c = 0
      · subst hc; simp [runFzfModel]
      · simp [runFzfModel, hc]



theorem selectorLines_of_usable (hits : List (passwordSearchHit × Option passwordDetail))
    (fzfRes : FzfResult) (clip : ClipResult)
    (h1 : hits ≠ []) (h2 : detailsOf hits ≠ []) :
    (mainModel hits fzfRes clip).selectorLines = some (linesOf hits) := by
  simp only [mainModel, if_neg h1, if_neg h2, linesOf]
  repeat first | rfl | split

/-- C7: a failed fetch is warned about and skipped while the others keep
their order; zero hits, or all fetches failing, end the run with exit code
0 and no selector invocation; in the two-hit scenario with one failed
fetch, exactly one line is offered and the failed identifier is not among
the displayed ones. -/
theorem c7_fetch_skip (fzfRes : FzfResult) (clip : ClipResult) :
    (∀ (pre post : List (passwordSearchHit × Option passwordDetail))
         (hfail : passwordSearchHit),
      detailsOf (pre ++ (hfail, none) :: post) = detailsOf pre ++ detailsOf post ∧
      warnIdsOf (pre ++ (hfail, none) :: post) =
        warnIdsOf pre ++ hfail.id :: warnIdsOf post) ∧
    mainModel [] fzfRes clip = ⟨0, none, none, [], false⟩ ∧
    (∀ hits, hits ≠ [] → (∀ x ∈ hits, x.2 = none) →
      mainModel hits fzfRes clip = ⟨0, none, none, warnIdsOf hits, false⟩) ∧
    (∀ (hA hB : passwordSearchHit) (dA : passwordDetail), dA.id ≠ hB.id →
      linesOf [(hA, some dA), (hB, none)] = [buildFzfLine dA] ∧
      (detailsOf [(hA, some dA), (hB, none)]).map (fun d => d.id) = [dA.id] ∧
      hB.id ∉ (detailsOf [(hA, some dA), (hB, none)]).map (fun d => d.id) ∧
      (mainModel [(hA, some dA), (hB, none)] fzfRes clip).selectorLines =
        some [buildFzfLine dA]) := by
  refine ⟨?_, rfl, ?_, ?_⟩
  · intro pre post hfail
    constructor
    · simp [detailsOf, List.filterMap_append]
    · simp [warnIdsOf, List.filter_append]
  · intro hits hne hall
    have hdet : detailsOf hits = [] := by
      rw [detailsOf, List.filterMap_eq_nil_iff]
      intro x hx
      rw [hall x hx]
    simp [mainModel, if_neg hne, hdet]
  · intro hA hB dA hid
    have hlines : linesOf [(hA, some dA), (hB, none)] = [buildFzfLine dA] := by
      simp [linesOf, detailsOf]
    refine ⟨hlines, by simp [detailsOf], ?_, ?_⟩
    · simp [detailsOf]
      exact fun hh => hid hh.symm
    · have := selectorLines_of_usable [(hA, some dA), (hB, none)] fzfRes clip
        (by simp) (by simp [detailsOf])
      rw [this, hlines]



/-- C1: once a record is selected, an empty secret aborts with exit code 1
and nothing reaches the clipboard; a non-empty secret is base64-decoded
and delivered, falling back to the raw value (with the warning flag) when
decoding fails, and the encoded form of hello is delivered as hello. -/
theorem c1_secret_to_clipboard (hits : List (passwordSearchHit × Option passwordDetail))
    (fzfRes : FzfResult) (clip : ClipResult) (sel : GoStr) (chosen : passwordDetail)
    (h1 : hits ≠ []) (h2 : detailsOf hits ≠ [])
    (h3 : runFzfModel fzfRes = some sel) (h4 : sel ≠ [])
    (h5 : (detailsOf hits).find? (fun d => d.id = idFromLine sel) = some chosen) :
    (chosen.cryptedPassword = [] →
      mainModel hits fzfRes clip =
        ⟨1, some (linesOf hits), none, warnIdsOf hits, false⟩) ∧
    (chosen.cryptedPassword ≠ [] → clip ≠ .noCommand →
      (mainModel hits fzfRes clip).clipboardInput =
        some (decodeB64OrRaw chosen.cryptedPassword)) ∧
    (chosen.cryptedPassword ≠ [] →
      (mainModel hits fzfRes clip).decodeWarned =
        (decodeB64 chosen.cryptedPassword).isNone) ∧
    (chosen.cryptedPassword = [97, 71, 86, 115, 98, 71, 56, 61] →
      clip ≠ .noCommand →
      (mainModel hits fzfRes clip).clipboardInput =
        some [104, 101, 108, 108, 111]) := by
  have hcb : chosen.cryptedPassword ≠ [] → clip ≠ .noCommand →
      (mainModel hits fzfRes clip).clipboardInput =
        some (decodeB64OrRaw chosen.cryptedPassword) := by
    intro hsec hclip
    simp only [mainModel, if_neg h1, if_neg h2, h3, if_neg h4, h5, if_neg hsec]
    rcases hdec : decodeB64 chosen.cryptedPassword with _ | d <;>
      cases clip <;> simp [decodeB64OrRaw, hdec] at hclip ⊢
  refine ⟨?_, hcb, ?_, ?_⟩
  · intro hsec
    simp [mainModel, h1, h2, h3, h4, h5, hsec, linesOf]
  · intro hsec
    simp only [mainModel, if_neg h1, if_neg h2, h3, if_neg h4, h5, if_neg hsec]
    rcases hdec : decodeB64 chosen.cryptedPassword with _ | d <;>
      cases clip <;> simp [hdec]
  · intro hsec hclip
    rw [hcb (by rw [hsec]; decide) hclip, hsec]
    decide



theorem find?_first {α : Type} (p : α → Bool) :
    ∀ (l1 : List α) (d : α) (l2 : List α), (∀ x ∈ l1, p x = false) → p d = true →
      (l1 ++ d :: l2).find? p = some d
  | [], d, l2, _, hd => by simp [List.find?_cons, hd]
  | x :: xs, d, l2, h, hd => by
    have hx : p x = false := h x (by simp)
    simp only [List.cons_append, List.find?_cons, hx, cond_false]
    exact find?_first p xs d l2 (fun y hy => h y (by simp [hy])) hd

/-- C10: a non-empty selection is resolved against the already-fetched
details by exact identifier equality, the first record in fetch order
winning when several share the identifier, and that record's decoded
secret is what reaches the clipboard. -/
theorem c10_selection_resolution (hits : List (passwordSearchHit × Option passwordDetail))
    (fzfRes : FzfResult) (clip : ClipResult) (sel : GoStr)
    (l1 l2 : List passwordDetail) (d : passwordDetail)
    (h1 : hits ≠ []) (h2 : detailsOf hits ≠ [])
    (h3 : runFzfModel fzfRes = some sel) (h4 : sel ≠ [])
    (hsplit : detailsOf hits = l1 ++ d :: l2)
    (hfirst : ∀ x ∈ l1, x.id ≠ idFromLine sel)
    (hmatch : d.id = idFromLine sel)
    (hsec : d.cryptedPassword ≠ [])
    (hclip : clip = .ok) :
    (detailsOf hits).find? (fun x => x.id = idFromLine sel) = some d ∧
    mainModel hits fzfRes clip =
      ⟨0, some (linesOf hits), some (decodeB64OrRaw d.cryptedPassword),
       warnIdsOf hits, (decodeB64 d.cryptedPassword).isNone⟩ := by
  have hfind : (detailsOf hits).find? (fun x => x.id = idFromLine sel) = some d := by
    rw [hsplit]
    exact find?_first _ l1 d l2
      (fun x hx => by simpa using hfirst x hx) (by simpa using hmatch)
  refine ⟨hfind, ?_⟩
  subst hclip
  simp only [mainModel, if_neg h1, if_neg h2, h3, if_neg h4, hfind, if_neg hsec]
  rcases hdec : decodeB64 d.cryptedPassword with _ | b <;>
    simp [decodeB64OrRaw, hdec, linesOf]

/-- C6: base64-encoding any byte string and then running it through the
formatter's decode step yields the original value, and a malformed
(non-decodable) input comes back from the decode step unchanged. -/
theorem c6_decode_roundtrip (bs : List Nat) (hbs : ∀ b ∈ bs, b < 256)
    (s : GoStr) (hs : decodeB64 s = none) :
    decodeB64OrRaw (encodeB64 bs) = bs ∧ decodeB64OrRaw s = s := by
  constructor
  · unfold decodeB64OrRaw
    rw [decodeB64_encodeB64 bs hbs]
  · unfold decodeB64OrRaw
    rw [hs]

/-- Concrete round trip on the bytes of hello and the malformed input
consisting of one exclamation mark. -/
theorem c6_decode_roundtrip_witness :
    (∀ b ∈ ([104, 101, 108, 108, 111] : List Nat), b < 256) ∧
    decodeB64 [33] = none ∧
    decodeB64OrRaw (encodeB64 [104, 101, 108, 108, 111]) =
      [104, 101, 108, 108, 111] ∧
    decodeB64OrRaw [33] = [33] :=
  ⟨by decide, by decide,
   (c6_decode_roundtrip [104, 101, 108, 108, 111] (by decide) [33] (by decide)).1,
   (c6_decode_roundtrip [104, 101, 108, 108, 111] (by decide) [33] (by decide)).2⟩

/-- Concrete run: one hit, secret the encoding of hello, selection a;
hello reaches the clipboard. -/
theorem c1_secret_to_clipboard_witness :
    (mainModel [(hitA, some dHello)] (.exited 0 [97]) .ok).clipboardInput =
      some [104, 101, 108, 108, 111] :=
  (c1_secret_to_clipboard [(hitA, some dHello)] (.exited 0 [97]) .ok [97] dHello
    (by decide) (by decide) (by decide) (by decide) (by decide)).2.2.2
    (by decide) (by decide)

/-- Concrete run: the selector exits normally with empty output; the
program exits 0 and the clipboard is untouched. -/
theorem c4_selector_witness :
    mainModel [(hitA, some dHello)] (.exited 0 []) .ok =
      ⟨0, some (linesOf [(hitA, some dHello)]), none,
       warnIdsOf [(hitA, some dHello)], false⟩ :=
  (c4_selector [(hitA, some dHello)] (.exited 0 []) .ok
    (by decide) (by decide)).1 [] rfl (by decide)

/-- Concrete run: two hits, the second fetch fails; one line is offered
and the failed identifier is not displayed. -/
theorem c7_fetch_skip_witness :
    linesOf [(hitA, some dHello), (hitB, none)] = [buildFzfLine dHello] ∧
    (detailsOf [(hitA, some dHello), (hitB, none)]).map (fun d => d.id) =
      [dHello.id] ∧
    hitB.id ∉ (detailsOf [(hitA, some dHello), (hitB, none)]).map (fun d => d.id) ∧
    (mainModel [(hitA, some dHello), (hitB, none)]
        (.exited 0 [97]) .ok).selectorLines = some [buildFzfLine dHello] :=
  (c7_fetch_skip (.exited 0 [97]) .ok).2.2.2 hitA hitB dHello (by decide)

/-- Concrete instance: a single custom field whose name decodes and trims
to empty and whose value trims to empty gives an empty description. -/
theorem c8_description_witness :
    (∀ c ∈ ([⟨[73, 65, 61, 61], [32, 32], []⟩] : List customField),
      trimSpace (decodeB64OrRaw c.name) = [] ∧
      trimSpace (decodeB64OrRaw c.value) = []) ∧
    formatDescription [⟨[73, 65, 61, 61], [32, 32], []⟩] = [] :=
  ⟨by decide, (c8_description [⟨[73, 65, 61, 61], [32, 32], []⟩]).2.2 (by decide)⟩

/-- Concrete run: two fetched records share the identifier a; the first
one in fetch order is resolved and its decoded secret is delivered. -/
theorem c10_selection_resolution_witness :
    (detailsOf [(hitA, some dHello), (hitA, some dDup)]).find?
        (fun x => x.id = idFromLine [97]) = some dHello ∧
    mainModel [(hitA, some dHello), (hitA, some dDup)] (.exited 0 [97]) .ok =
      ⟨0, some (linesOf [(hitA, some dHello), (hitA, some dDup)]),
       some (decodeB64OrRaw dHello.cryptedPassword),
       warnIdsOf [(hitA, some dHello), (hitA, some dDup)],
       (decodeB64 dHello.cryptedPassword).isNone⟩ :=
  c10_selection_resolution [(hitA, some dHello), (hitA, some dDup)]
    (.exited 0 [97]) .ok [97] [] [dDup] dHello
    (by decide) (by decide) (by decide) (by decide) (by decide)
    (by simp) (by decide) (by decide) rfl

end Pwfz
